import Mathlib

/-!
Verification development for the transaction ingestion and reconciliation
pipeline of the ResQ Ledger server (`server/src/services/blockchainService.ts`,
`server/src/services/upiPaymentService.ts`, `server/src/models/Transaction.ts`,
`server/src/config/database.ts`, `server/src/index.ts`).

Modelling conventions for the shallow embedding:
* JavaScript numbers are modelled as `Option ℚ`, with `none` standing for
  `NaN`; all arithmetic the pipeline performs on reachable inputs is exact
  rational arithmetic.
* Strings are Lean `String`s; `String.prototype.toLowerCase`,
  `toUpperCase`, `substring` and `includes` are modelled by the explicit
  ASCII-level functions below, which is what they compute on the hash and
  identifier strings this code manipulates.
* ISO-8601 timestamps stay strings (as in the source); `new Date(s).getTime()`
  is modelled by `dateGetTime`, which reads the digits of the fixed-width
  ISO string as one number — an order-embedding of the real `getTime` on the
  timestamps the system generates.
* The MongoDB collection is a `List TransactionDocument` in insertion order;
  the unique index on `hash` (created in `config/database.ts`) makes
  `insertOne` fail with a duplicate-key error, which `TransactionModel.insert`
  models by returning `Except.error`.
* `ethers.keccak256` is a library primitive, kept abstract as a function
  parameter `keccak256 : String → String` of the environment.
* The audit fields `createdAt`/`updatedAt` of stored documents are wall-clock
  bookkeeping never read by the pipeline and are not modelled.
-/

namespace ResQ

/-- One decimal digit as a character (only used with `n < 10`). -/
def digitChar (n : Nat) : Char := Char.ofNat (48 + n)

/-- Decimal digits of `n`, most significant first (fuel-indexed helper). -/
def natDigits : Nat → Nat → List Char
  | 0, _ => []
  | fuel+1, n => if n < 10 then [digitChar n] else natDigits fuel (n / 10) ++ [digitChar (n % 10)]

/-- Decimal rendering of a natural number. -/
def natToStr (n : Nat) : String := ⟨natDigits (n + 1) n⟩

/-- Decimal rendering of an integer (JavaScript-style, with a leading minus). -/
def intToStr (i : Int) : String :=
  if i < 0 then "-" ++ natToStr i.natAbs else natToStr i.natAbs

/-- Numeric value of a list of decimal digit characters. -/
def digitsVal (cs : List Char) : Nat := cs.foldl (fun a c => 10 * a + (c.toNat - 48)) 0

/-- ASCII lower-casing of one character, as `toLowerCase` does on hash strings. -/
def lowerChar (c : Char) : Char :=
  if 65 ≤ c.toNat ∧ c.toNat ≤ 90 then Char.ofNat (c.toNat + 32) else c

/-- Model of `String.prototype.toLowerCase` on the ASCII hash strings used here. -/
def lowerStr (s : String) : String := ⟨s.data.map lowerChar⟩

/-- ASCII upper-casing of one character. -/
def upperChar (c : Char) : Char :=
  if 97 ≤ c.toNat ∧ c.toNat ≤ 122 then Char.ofNat (c.toNat - 32) else c

/-- Model of `String.prototype.toUpperCase`. -/
def upperStr (s : String) : String := ⟨s.data.map upperChar⟩

/-- Model of `String.prototype.substring(0, k)`. -/
def takeStr (k : Nat) (s : String) : String := ⟨s.data.take k⟩

/-- Model of `String.prototype.includes` for a one-character needle. -/
def strContains (s : String) (c : Char) : Bool := s.data.contains c

/-- Model of `s.replace(/[^0-9.]/g, '')`: keep only digits and dots. -/
def stripNonNumeric (s : String) : List Char :=
  s.data.filter (fun c => c.isDigit || c == '.')

/-- JavaScript number truthiness: `undefined`/`NaN`/`0` are falsy. -/
def jsTruthy (v : Option ℚ) : Bool :=
  match v with
  | none => false
  | some q => q != 0

/-- JavaScript `v >= c` where `v` may be `NaN` (then the comparison is false). -/
def jsGe (v : Option ℚ) (c : ℚ) : Bool :=
  match v with
  | none => false
  | some q => decide (c ≤ q)

/-- JavaScript `+` where either side may be `NaN` (`NaN` absorbs). -/
def jsAdd (a b : Option ℚ) : Option ℚ :=
  match a, b with
  | some x, some y => some (x + y)
  | _, _ => none

/-- Fractional decimal digits of `0 ≤ r < 1` (terminating expansions only). -/
def fracDigits : Nat → ℚ → String
  | 0, _ => ""
  | fuel+1, r =>
    if r = 0 then ""
    else
      let r10 := r * 10
      natToStr (Int.toNat ⌊r10⌋) ++ fracDigits fuel (r10 - ⌊r10⌋)

/-- Template-literal rendering of a JavaScript number (`NaN` prints "NaN";
integers print without a decimal point; terminating decimals print exactly). -/
def jsToString (v : Option ℚ) : String :=
  match v with
  | none => "NaN"
  | some q =>
    if q.den = 1 then intToStr q.num
    else
      let sign := if q < 0 then "-" else ""
      let a := |q|
      sign ++ natToStr (Int.toNat ⌊a⌋) ++ "." ++ fracDigits 20 (a - ⌊a⌋)

/-- Model of `parseFloat` as used in this code base: the argument has already
been stripped to digits and dots (or is a plain decimal form string), so the
parse reads an optional integer part and an optional fractional part and is
`NaN` (`none`) when no digit is found. -/
def parseFloatQ (s : String) : Option ℚ :=
  let cs := s.data
  let intPart := cs.takeWhile Char.isDigit
  let rest := cs.dropWhile Char.isDigit
  match rest with
  | '.' :: rs =>
    let fracPart := rs.takeWhile Char.isDigit
    if intPart.isEmpty && fracPart.isEmpty then none
    else some ((digitsVal intPart : ℚ) + (digitsVal fracPart : ℚ) / 10 ^ fracPart.length)
  | _ => if intPart.isEmpty then none else some ((digitsVal intPart : ℚ))

/-- Left-pad a digit string with zeros to width `k`. -/
def padZeros (k : Nat) (s : String) : String :=
  if s.length < k then String.mk (List.replicate (k - s.length) '0') ++ s else s

/-- Model of `Number.prototype.toFixed(digits)` on the nonnegative totals the
pipeline produces: round to nearest with ties toward the larger value. -/
def toFixedQ (digits : Nat) (q : ℚ) : String :=
  let n := ⌊q * 10 ^ digits + 1 / 2⌋
  if digits = 0 then intToStr n
  else intToStr (n / 10 ^ digits) ++ "." ++ padZeros digits (natToStr (Int.toNat (n % 10 ^ digits)))

/-- `new Date(s).getTime()` modelled as the digits of the fixed-width ISO-8601
timestamp read as one number: an order-embedding of block/event time. -/
def dateGetTime (s : String) : Nat := digitsVal (s.data.filter Char.isDigit)

/-- Transaction status: `pending` (no confirmed receipt yet) or `verified`. -/
inductive TxStatus where
  | pending
  | verified
deriving DecidableEq, Repr

/-- The canonical transaction record (`BlockchainTransaction` in `types/index.ts`). -/
structure BlockchainTransaction where
  id : String
  donor : String
  region : String
  amount : String
  timestamp : String
  hash : String
  status : TxStatus
  blockNumber : Option Nat
deriving DecidableEq, Repr

/-- A stored document (`TransactionDocument` in `models/Transaction.ts`):
the canonical record plus optional persistence-only fields. `amountInINR`
is `none` when the field is absent or `NaN` (both are falsy in the source). -/
structure TransactionDocument extends BlockchainTransaction where
  upiReference : Option String
  paymentMethod : Option String
  amountInINR : Option ℚ
  donorPhone : Option String
  donorEmail : Option String
  description : Option String
deriving DecidableEq, Repr

/-- Sort key of a record: its event time. -/
def txTime (t : BlockchainTransaction) : Nat := dateGetTime t.timestamp

/-- Sort key of a stored document: its event time. -/
def docTime (d : TransactionDocument) : Nat := dateGetTime d.timestamp

/-- Insert into a list kept sorted by strictly descending interest in `key`:
the element goes in front of the first strictly smaller key. -/
def insertKeyDesc {α : Type} (key : α → Nat) (t : α) : List α → List α
  | [] => [t]
  | x :: xs => if key x < key t then t :: x :: xs else x :: insertKeyDesc key t xs

/-- Sort by `key`, largest first (models `.sort((a, b) => key b - key a)` and
the store's `sort({timestamp: -1})`). -/
def sortByKeyDesc {α : Type} (key : α → Nat) (l : List α) : List α :=
  l.foldr (insertKeyDesc key) []

namespace TransactionModel

/-- `findByHash`: first stored document with the given hash. -/
def findByHash (db : List TransactionDocument) (h : String) : Option TransactionDocument :=
  db.find? (fun d => d.hash == h)

/-- `insert` under the unique index on `hash` created in `config/database.ts`:
a second document with an existing hash is rejected with a duplicate-key
error instead of being stored. -/
def insert (db : List TransactionDocument) (doc : TransactionDocument) :
    Except String (List TransactionDocument) :=
  if db.any (fun d => d.hash == doc.hash) then
    Except.error "E11000 duplicate key error"
  else
    Except.ok (db ++ [doc])

/-- `findAll(limit)`: all documents sorted by timestamp descending, truncated. -/
def findAll (db : List TransactionDocument) (limit : Nat) : List TransactionDocument :=
  (sortByKeyDesc docTime db).take limit

/-- `getTotalCount`: number of stored documents. -/
def getTotalCount (db : List TransactionDocument) : Nat := db.length

/-- Contribution of a display-amount string to the store-side total:
strip to digits/dots, `parseFloat`, skip `NaN`, then scale by the
`M`/`K` suffix (no suffix means the value itself). -/
def amountStringContribution (amount : String) : ℚ :=
  match parseFloatQ ⟨stripNonNumeric amount⟩ with
  | none => 0
  | some a =>
    if strContains amount 'M' then a * 1000000
    else if strContains amount 'K' then a * 1000
    else a

/-- Contribution of one stored document to `getTotalAid`: the raw
`amountInINR` when that field is truthy, otherwise the parsed display string. -/
def docContribution (d : TransactionDocument) : ℚ :=
  if jsTruthy d.amountInINR then d.amountInINR.getD 0
  else amountStringContribution d.amount

/-- `getTotalAid`: fold the per-document contributions. -/
def getTotalAid (db : List TransactionDocument) : ℚ :=
  db.foldl (fun total d => total + docContribution d) 0

end TransactionModel

/-- Outcome of a successful `polygonService.sendTransaction` (real hash and
the block in which the transfer was mined). -/
structure SendTxResult where
  hash : String
  blockNumber : Nat

/-- The external world as the two services observe it during one call:
wallet configuration, RPC outcomes, the abstract `ethers.keccak256`
primitive, and the wall clock. -/
structure ChainEnv where
  walletAddress : Option String
  walletConnected : Bool
  providerBlockNumber : Option Nat
  sendResult : Except String SendTxResult
  keccak256 : String → String
  nowBase36 : String
  nowISO : String
  fetchResult : List BlockchainTransaction
  balanceResult : String

/-- The logical payment event handed to the UPI payment service
(`UPIPaymentRecord` in `upiPaymentService.ts`). `amount` is a JavaScript
number (`none` = `NaN`). -/
structure UPIPaymentRecord where
  amount : Option ℚ
  upiReference : String
  donorName : Option String
  donorPhone : Option String
  region : Option String
  description : Option String
  timestamp : String
  verified : Bool

/-- JavaScript `a || b` for an optional string (empty string is falsy). -/
def jsOrStr (v : Option String) (dflt : String) : String :=
  match v with
  | none => dflt
  | some s => if s = "" then dflt else s

namespace UPIPaymentService

/-- `generateTransactionHash`: the deterministic fallback hash is the keccak
hash of the string `externalRef-amount-timestamp`. -/
def generateTransactionHash (keccak : String → String) (p : UPIPaymentRecord) : String :=
  keccak (p.upiReference ++ "-" ++ jsToString p.amount ++ "-" ++ p.timestamp)

/-- Display formatting of the INR amount in `recordUPIPayment`
(`₹…M` / `₹…K` / plain `₹` plus the number). -/
def upiAmountDisplay (amount : Option ℚ) : String :=
  if jsGe amount 1000000 then "₹" ++ toFixedQ 1 (amount.getD 0 / 1000000) ++ "M"
  else if jsGe amount 1000 then "₹" ++ toFixedQ 0 (amount.getD 0 / 1000) ++ "K"
  else "₹" ++ jsToString amount

/-- `UPIPaymentService.recordUPIPayment`: build the canonical record. When a
signing wallet is available the (awaited) ledger submission decides hash,
block and `verified` status; a submission error or a missing wallet falls
back to the deterministic hash with `pending` status. The `sendToBlockchain`
flag the caller passes is unused by the source body, and the `maticAmount`
conversion it computes is dead, so neither appears here. -/
def recordUPIPayment (env : ChainEnv) (p : UPIPaymentRecord) : BlockchainTransaction :=
  let fallbackBlock := env.providerBlockNumber
  let hb :=
    if env.walletAddress.isSome ∧ env.walletConnected then
      match env.sendResult with
      | Except.ok r => (r.hash, some r.blockNumber, TxStatus.verified)
      | Except.error _ => (generateTransactionHash env.keccak256 p, fallbackBlock, TxStatus.pending)
    else (generateTransactionHash env.keccak256 p, fallbackBlock, TxStatus.pending)
  { id := "UPI-" ++ upperStr (takeStr 8 p.upiReference) ++ "-" ++ env.nowBase36
    donor := jsOrStr p.donorName ("UPI-" ++ takeStr 6 p.upiReference)
    region := jsOrStr p.region "Multiple Regions"
    amount := upiAmountDisplay p.amount
    timestamp := jsOrStr (some p.timestamp) env.nowISO
    hash := hb.1
    status := hb.2.2
    blockNumber := hb.2.1 }

end UPIPaymentService

/-- The orchestrator's mutable state (`BlockchainService` fields):
the in-memory cache (newest first), the block counter, the processed-hash
set of the explicit payment path, the store handle (`none` = MongoDB
unreachable), the chain-connection flag and the cached wallet balance. -/
structure BlockchainState where
  transactions : List BlockchainTransaction
  blockCounter : Nat
  processedTransactionHashes : List String
  store : Option (List TransactionDocument)
  isRealBlockchainConnected : Bool
  walletBalance : String

/-- Payment input of `BlockchainService.recordUPIPayment` (already parsed by
the HTTP route; `amount` is a JavaScript number). -/
structure UPIPaymentInput where
  amount : Option ℚ
  upiReference : String
  donorName : Option String
  donorPhone : Option String
  region : Option String
  description : Option String
  sendToBlockchain : Bool

/-- `Set.add` on the processed-hash set (a set of strings). -/
def addProcessed (l : List String) (h : String) : List String :=
  if l.contains h then l else h :: l

/-- The best-effort persistence block shared by the write paths: look the
hash up first and skip on a match; otherwise insert, and swallow a
duplicate-key (or any other) insert error. Store failures never escape. -/
def persistDoc (store : Option (List TransactionDocument)) (doc : TransactionDocument) :
    Option (List TransactionDocument) :=
  match store with
  | none => none
  | some db =>
    if (TransactionModel.findByHash db doc.hash).isSome then some db
    else
      match TransactionModel.insert db doc with
      | Except.ok db2 => some db2
      | Except.error _ => some db

/-- The stored document the explicit write path persists: the canonical
record plus the UPI-only extended fields of the payment. -/
def upiDoc (tx : BlockchainTransaction) (payment : UPIPaymentInput) : TransactionDocument :=
  { toBlockchainTransaction := tx
    upiReference := some payment.upiReference
    paymentMethod := some "upi"
    amountInINR := payment.amount
    donorPhone := payment.donorPhone
    donorEmail := none
    description := payment.description }

namespace BlockchainService

/-- `BlockchainService.recordUPIPayment`: delegate to the UPI service for the
canonical record, register its lower-cased hash in the processed set, prepend
it to the cache, persist best-effort (with the UPI-only extended fields), and
bump the block counter. The returned record never depends on the store. -/
def recordUPIPayment (env : ChainEnv) (s : BlockchainState) (payment : UPIPaymentInput) :
    BlockchainTransaction × BlockchainState :=
  let paymentRecord : UPIPaymentRecord :=
    { amount := payment.amount
      upiReference := payment.upiReference
      donorName := payment.donorName
      donorPhone := payment.donorPhone
      region := payment.region
      description := payment.description
      timestamp := env.nowISO
      verified := true }
  let blockchainTx := UPIPaymentService.recordUPIPayment env paymentRecord
  let doc : TransactionDocument := upiDoc blockchainTx payment
  let newCounter :=
    match blockchainTx.blockNumber with
    | some b => if s.blockCounter < b then b else s.blockCounter
    | none => s.blockCounter
  (blockchainTx,
   { s with
     transactions := blockchainTx :: s.transactions
     processedTransactionHashes := addProcessed s.processedTransactionHashes (lowerStr blockchainTx.hash)
     store := persistDoc s.store doc
     blockCounter := newCounter })

/-- The Chain Monitor callback installed in `connectToBlockchain`: drop every
batch record whose lower-cased hash is already in the processed set, and
prepend the survivors to the cache. -/
def applyMonitorBatch (s : BlockchainState) (batch : List BlockchainTransaction) :
    BlockchainState :=
  let unprocessed :=
    batch.filter (fun tx => !(s.processedTransactionHashes.contains (lowerStr tx.hash)))
  if unprocessed.length > 0 then { s with transactions := unprocessed ++ s.transactions } else s

end BlockchainService

/-- The payload returned by `getTransactions` (`TransactionResponse`). -/
structure TransactionResponse where
  transactions : List BlockchainTransaction
  totalTransactions : Nat
  totalAid : String
  smartContracts : Nat
  avgProcessingTime : String
  walletAddress : Option String
  walletBalance : String
  isRealBlockchain : Bool
deriving DecidableEq, Repr

namespace BlockchainService

/-- `calculateTotalAid` (cache fallback totals): parse each display amount
and scale by suffix — `M` means millions, `K` means thousands, and any other
amount is treated as native-token units and scaled by the 0.0001 display
conversion. A `NaN` parse poisons the running JavaScript sum. -/
def calculateTotalAid (transactions : List BlockchainTransaction) : Option ℚ :=
  transactions.foldl
    (fun total tx =>
      let parsed := parseFloatQ ⟨stripNonNumeric tx.amount⟩
      let contribution : Option ℚ :=
        match parsed with
        | none => none
        | some a =>
          if strContains tx.amount 'M' then some (a * 1000000)
          else if strContains tx.amount 'K' then some (a * 1000)
          else some (a * (1 / 10000))
      jsAdd total contribution)
    (some 0)

/-- `formatAidAmount`: millions with one decimal, thousands with none,
otherwise two decimals (`NaN` renders as `$NaN`). -/
def formatAidAmount (amount : Option ℚ) : String :=
  if jsGe amount 1000000 then "$" ++ toFixedQ 1 (amount.getD 0 / 1000000) ++ "M"
  else if jsGe amount 1000 then "$" ++ toFixedQ 0 (amount.getD 0 / 1000) ++ "K"
  else "$" ++ toFixedQ 2 (amount.getD 0)

/-- One step of the merge `Map`: setting an existing `id` replaces its value
in place, a new `id` is appended (JavaScript `Map` insertion-order semantics). -/
def upsertById (acc : List BlockchainTransaction) (t : BlockchainTransaction) :
    List BlockchainTransaction :=
  if acc.any (fun x => x.id == t.id) then acc.map (fun x => if x.id == t.id then t else x)
  else acc ++ [t]

/-- The read-path merge: store records enter the `Map` first, cache records
after (overwriting on an `id` conflict), then the values are listed. -/
def mergeById (dbList cache : List BlockchainTransaction) : List BlockchainTransaction :=
  (dbList ++ cache).foldl upsertById []

/-- `loadRealTransactions` followed by the balance refresh in the fallback
read path: replace the cache with the fetched chain history when it is
nonempty (block counter from its head, `0`/absent falling back to `156`). -/
def loadRealTransactions (env : ChainEnv) (s : BlockchainState) : BlockchainState :=
  let s1 :=
    if env.fetchResult.length > 0 then
      let counter :=
        match env.fetchResult with
        | t :: _ =>
          match t.blockNumber with
          | some b => if b = 0 then 156 else b
          | none => 156
        | [] => 156
      { s with transactions := env.fetchResult, blockCounter := counter }
    else s
  { s1 with walletBalance := env.balanceResult }

/-- `BlockchainService.getTransactions`. With a reachable store: read the
latest 50 documents, compute both totals from the store, merge the store list
with the cache by `id` (cache wins), sort by timestamp descending, truncate
to 50, and make that list the new cache. Without a store: refresh from the
chain when connected, then return the cache as is, with totals derived from
the cache amounts. (The source's on-demand re-initialization branch repeats
the store path verbatim and is represented by the same store path here.) -/
def getTransactions (env : ChainEnv) (s : BlockchainState) :
    TransactionResponse × BlockchainState :=
  match s.store with
  | some db =>
    let dbTransactions := TransactionModel.findAll db 50
    let totalTransactions := TransactionModel.getTotalCount db
    let totalAid := formatAidAmount (some (TransactionModel.getTotalAid db))
    let dbTxList := dbTransactions.map (fun d => d.toBlockchainTransaction)
    let merged := mergeById dbTxList s.transactions
    let txs := (sortByKeyDesc txTime merged).take 50
    let newCounter :=
      match dbTransactions with
      | d :: _ =>
        match d.blockNumber with
        | some b => if b = 0 then s.blockCounter else b
        | none => s.blockCounter
      | [] => s.blockCounter
    ({ transactions := txs
       totalTransactions := totalTransactions
       totalAid := totalAid
       smartContracts := newCounter
       avgProcessingTime := "2.3s"
       walletAddress := env.walletAddress
       walletBalance := s.walletBalance
       isRealBlockchain := s.isRealBlockchainConnected },
     { s with transactions := txs, blockCounter := newCounter })
  | none =>
    let s1 := if s.isRealBlockchainConnected then loadRealTransactions env s else s
    let totalAid := formatAidAmount (calculateTotalAid s1.transactions)
    ({ transactions := s1.transactions.take 50
       totalTransactions := s1.transactions.length
       totalAid := totalAid
       smartContracts := s1.blockCounter
       avgProcessingTime := "2.3s"
       walletAddress := env.walletAddress
       walletBalance := s1.walletBalance
       isRealBlockchain := s1.isRealBlockchainConnected },
     s1)

end BlockchainService

/-- JavaScript falsiness of an optional form-data string field
(missing field or empty string). -/
def jsFalsyField (v : Option String) : Bool :=
  match v with
  | none => true
  | some s => s = ""

/-- The raw multipart form of `POST /api/payments/record-upi`. -/
structure RecordUpiForm where
  amount : Option String
  upiReference : Option String
  donorName : Option String
  donorPhone : Option String
  region : Option String
  description : Option String
  sendToBlockchain : Bool

/-- The `record-upi` route without its OCR side-quest: reject when `amount`
or `upiReference` is missing (the only hard, caller-facing failure), then
parse the amount and delegate to `BlockchainService.recordUPIPayment`. -/
def recordUpiRoute (env : ChainEnv) (s : BlockchainState) (form : RecordUpiForm) :
    Except String (BlockchainTransaction × BlockchainState) :=
  if jsFalsyField form.amount || jsFalsyField form.upiReference then
    Except.error "Missing required fields: amount and upiReference are required"
  else
    Except.ok (BlockchainService.recordUPIPayment env s
      { amount := parseFloatQ (form.amount.getD "")
        upiReference := form.upiReference.getD ""
        donorName := form.donorName
        donorPhone := form.donorPhone
        region := form.region
        description := form.description
        sendToBlockchain := form.sendToBlockchain })

/-- Result of the startup connection loop in `index.ts`: whether MongoDB
connected, how many connection attempts ran, the waits (in milliseconds)
between successive attempts, and whether the HTTP server keeps serving. -/
structure StartupOutcome where
  connected : Bool
  attempts : Nat
  waits : List Nat
  serverListening : Bool
deriving DecidableEq, Repr

/-- The retry loop body (`while (!mongoConnected && retryCount < maxRetries)`
with `maxRetries = 5`): on failure the counter steps and, below the cap, the
process sleeps `retryCount * 2000` ms before the next attempt. -/
def startupGo (ok : Nat → Bool) : Nat → Nat → List Nat → Bool × Nat × List Nat
  | 0, attempts, waits => (false, attempts, waits.reverse)
  | fuel+1, retryCount, waits =>
    if ok retryCount then (true, retryCount + 1, waits.reverse)
    else
      let rc := retryCount + 1
      if rc < 5 then startupGo ok fuel rc (rc * 2000 :: waits)
      else (false, rc, waits.reverse)

/-- The `app.listen` startup sequence around the retry loop: whatever the
loop's outcome, the server keeps listening (the exhausted branch logs,
constructs the service without MongoDB and returns instead of exiting). -/
def runStartup (ok : Nat → Bool) : StartupOutcome :=
  let r := startupGo ok 5 0 []
  { connected := r.1, attempts := r.2.1, waits := r.2.2, serverListening := true }

/-! Concrete fixtures used to instantiate the theorems below. -/

/-- A concrete stand-in for the abstract keccak primitive: prefixing is
injective, which is all the distinctness statements rely on. -/
def kec0 (s : String) : String := "0x" ++ s

/-- A stored document with only the canonical fields set. -/
def sampleDoc (idv amt hashv : String) : TransactionDocument :=
  { id := idv
    donor := "Donor"
    region := "Multiple Regions"
    amount := amt
    timestamp := "2024-01-01T00:00:00.000Z"
    hash := hashv
    status := TxStatus.verified
    blockNumber := none
    upiReference := none
    paymentMethod := none
    amountInINR := none
    donorPhone := none
    donorEmail := none
    description := none }

/-- A canonical in-memory record. -/
def sampleTx (idv amt ts hashv : String) : BlockchainTransaction :=
  { id := idv
    donor := "Donor"
    region := "Multiple Regions"
    amount := amt
    timestamp := ts
    hash := hashv
    status := TxStatus.verified
    blockNumber := some 100 }

/-- The record set of the spec's aggregate-correctness property. -/
def c2docs : List TransactionDocument :=
  [sampleDoc "TX-1" "$1.2M" "0xh1", sampleDoc "TX-2" "$500K" "0xh2",
   sampleDoc "TX-3" "₹300" "0xh3"]

/-- Environment with no signing wallet, a failing ledger, and a fixed clock. -/
def envNoWallet : ChainEnv :=
  { walletAddress := none
    walletConnected := false
    providerBlockNumber := none
    sendResult := Except.error "LedgerUnavailable"
    keccak256 := kec0
    nowBase36 := "T0"
    nowISO := "2024-01-02T00:00:00.000Z"
    fetchResult := []
    balanceResult := "0" }

/-- Fresh orchestrator state over an empty reachable store. -/
def emptyDbState : BlockchainState :=
  { transactions := []
    blockCounter := 156
    processedTransactionHashes := []
    store := some []
    isRealBlockchainConnected := false
    walletBalance := "0" }

/-- Fresh orchestrator state with the store unreachable. -/
def memOnlyState : BlockchainState :=
  { transactions := []
    blockCounter := 156
    processedTransactionHashes := []
    store := none
    isRealBlockchainConnected := false
    walletBalance := "0" }

/-- The spec's scenario payment: 500 INR under reference `UPI-001`. -/
def paymentA : UPIPaymentInput :=
  { amount := some 500
    upiReference := "UPI-001"
    donorName := none
    donorPhone := none
    region := none
    description := none
    sendToBlockchain := false }

/-- The same logical payment observed at a chosen timestamp. -/
def upiRecTs (ts : String) : UPIPaymentRecord :=
  { amount := some 500
    upiReference := "UPI-001"
    donorName := none
    donorPhone := none
    region := none
    description := none
    timestamp := ts
    verified := true }

/-- A stored document whose raw-amount field is present but zero. -/
def zeroInrDoc : TransactionDocument :=
  { sampleDoc "TX-Z" "₹5" "0xh5" with amountInINR := some 0 }

/-- A stored document with a nonzero raw amount and an unrelated display string. -/
def inr5doc : TransactionDocument :=
  { sampleDoc "TX-5" "₹300" "0xh6" with amountInINR := some 5 }

/-- A cache record whose display amount has no suffix. -/
def inrTx : BlockchainTransaction :=
  sampleTx "TX-IN" "₹300" "2024-01-01T00:00:00.000Z" "0xh3"

/-- Degraded-mode state whose cache holds the single no-suffix record. -/
def c7state : BlockchainState := { memOnlyState with transactions := [inrTx] }

/-- Environment with a configured wallet whose ledger submission fails. -/
def envWalletFail : ChainEnv :=
  { envNoWallet with
    walletAddress := some "0xWallet"
    walletConnected := true
    sendResult := Except.error "RPC failure" }

/-- A chain-discovered record whose block timestamp predates the cache head. -/
def oldTx : BlockchainTransaction :=
  sampleTx "TX-OLD" "0.0001 MATIC" "2024-01-01T00:00:00.000Z" "0xoldhash"

/-- Degraded-mode state reached by recording the scenario payment (timestamped
2024-01-02) and then receiving a monitor batch whose transaction carries an
older block timestamp: the monitor prepends, leaving the cache unsorted. -/
def c5state : BlockchainState :=
  BlockchainService.applyMonitorBatch
    (BlockchainService.recordUPIPayment envNoWallet memOnlyState paymentA).2 [oldTx]

/-- A chain-discovered record carrying the same ledger hash the scenario
payment received from the explicit path (the monitor re-observing it). -/
def c1mtx : BlockchainTransaction :=
  sampleTx "TX-M" "0.0001 MATIC" "2024-01-01T00:00:00.000Z"
    "0xUPI-001-500-2024-01-02T00:00:00.000Z"

/-- A well-formed `record-upi` form for the scenario payment. -/
def formA : RecordUpiForm :=
  { amount := some "500"
    upiReference := some "UPI-001"
    donorName := none
    donorPhone := none
    region := none
    description := none
    sendToBlockchain := false }

/-! General lemmas about the embedding's string and list machinery. -/

theorem string_ext_data {s t : String} (h : s.data = t.data) : s = t := by
  cases s
  cases t
  exact congrArg String.mk h

theorem string_append_left_cancel {s t u : String} (h : s ++ t = s ++ u) : t = u := by
  have hd := congrArg String.data h
  simp only [String.data_append] at hd
  exact string_ext_data (List.append_cancel_left hd)

theorem perm_insertKeyDesc {α : Type} (key : α → Nat) (t : α) (l : List α) :
    (insertKeyDesc key t l).Perm (t :: l) := by
  induction l with
  | nil => simp [insertKeyDesc]
  | cons x xs ih =>
    by_cases h : key x < key t
    · simp [insertKeyDesc, h]
    · simp only [insertKeyDesc, if_neg h]
      exact (ih.cons x).trans (List.Perm.swap t x xs)

theorem pairwise_insertKeyDesc {α : Type} (key : α → Nat) (t : α) (l : List α)
    (h : l.Pairwise (fun a b => key b ≤ key a)) :
    (insertKeyDesc key t l).Pairwise (fun a b => key b ≤ key a) := by
  induction l with
  | nil => simp [insertKeyDesc]
  | cons x xs ih =>
    rcases List.pairwise_cons.mp h with ⟨hx, hxs⟩
    by_cases hlt : key x < key t
    · simp only [insertKeyDesc, if_pos hlt]
      refine List.pairwise_cons.mpr ⟨?_, h⟩
      intro y hy
      rcases List.mem_cons.mp hy with rfl | hy2
      · exact Nat.le_of_lt hlt
      · exact le_trans (hx y hy2) (Nat.le_of_lt hlt)
    · simp only [insertKeyDesc, if_neg hlt]
      refine List.pairwise_cons.mpr ⟨?_, ih hxs⟩
      intro y hy
      rcases List.mem_cons.mp ((perm_insertKeyDesc key t xs).mem_iff.mp hy) with rfl | hy4
      · exact Nat.le_of_not_lt hlt
      · exact hx y hy4

theorem perm_sortByKeyDesc {α : Type} (key : α → Nat) (l : List α) :
    (sortByKeyDesc key l).Perm l := by
  induction l with
  | nil => simp [sortByKeyDesc]
  | cons x xs ih =>
    simp only [sortByKeyDesc, List.foldr_cons] at ih ⊢
    exact (perm_insertKeyDesc key x _).trans (ih.cons x)

theorem pairwise_sortByKeyDesc {α : Type} (key : α → Nat) (l : List α) :
    (sortByKeyDesc key l).Pairwise (fun a b => key b ≤ key a) := by
  induction l with
  | nil => simp [sortByKeyDesc]
  | cons x xs ih =>
    simp only [sortByKeyDesc, List.foldr_cons] at ih ⊢
    exact pairwise_insertKeyDesc key x _ ih

theorem mem_upsertById {acc : List BlockchainTransaction} {t x : BlockchainTransaction}
    (h : x ∈ BlockchainService.upsertById acc t) : x ∈ acc ∨ x = t := by
  unfold BlockchainService.upsertById at h
  split at h
  · rcases List.mem_map.mp h with ⟨y, hy, hxy⟩
    by_cases hid : (y.id == t.id) = true
    · right
      rw [← hxy]
      simp [hid]
    · left
      rw [← hxy]
      simpa [hid] using hy
  · rcases List.mem_append.mp h with h1 | h2
    · exact Or.inl h1
    · right
      simpa using h2

theorem mem_upsertFold {L : List BlockchainTransaction} :
    ∀ {acc x : _}, x ∈ L.foldl BlockchainService.upsertById acc → x ∈ acc ∨ x ∈ L := by
  induction L with
  | nil =>
    intro acc x h
    simp only [List.foldl_nil] at h
    exact Or.inl h
  | cons y ys ih =>
    intro acc x h
    rw [List.foldl_cons] at h
    rcases ih h with hacc | hys
    · rcases mem_upsertById hacc with h1 | h2
      · exact Or.inl h1
      · exact Or.inr (by simp [h2])
    · exact Or.inr (List.mem_cons_of_mem _ hys)

theorem upsertById_ids {acc : List BlockchainTransaction} {t : BlockchainTransaction}
    (h : acc.Pairwise (fun a b => a.id ≠ b.id)) :
    (BlockchainService.upsertById acc t).Pairwise (fun a b => a.id ≠ b.id) := by
  unfold BlockchainService.upsertById
  split
  case isTrue hany =>
    rw [List.pairwise_map]
    have hid : ∀ x : BlockchainTransaction, (if x.id == t.id then t else x).id = x.id := by
      intro x
      by_cases hx : (x.id == t.id) = true
      · simp [hx, (eq_of_beq hx).symm]
      · simp [hx]
    exact h.imp (fun {a b} hab => by rw [hid a, hid b]; exact hab)
  case isFalse hany =>
    apply List.pairwise_append.mpr
    refine ⟨h, by simp, ?_⟩
    intro a ha b hb heq
    have hb1 : b = t := by simpa using hb
    have : acc.any (fun x => x.id == t.id) = true :=
      List.any_eq_true.mpr ⟨a, ha, beq_iff_eq.mpr (by rw [heq, hb1])⟩
    exact absurd this hany

theorem upsertFold_ids {L : List BlockchainTransaction} :
    ∀ {acc : _}, acc.Pairwise (fun a b => a.id ≠ b.id) →
      (L.foldl BlockchainService.upsertById acc).Pairwise (fun a b => a.id ≠ b.id) := by
  induction L with
  | nil =>
    intro acc h
    simpa using h
  | cons y ys ih =>
    intro acc h
    rw [List.foldl_cons]
    exact ih (upsertById_ids h)

theorem mem_upsertById_self (acc : List BlockchainTransaction) (t : BlockchainTransaction) :
    t ∈ BlockchainService.upsertById acc t := by
  unfold BlockchainService.upsertById
  split
  case isTrue hany =>
    rcases List.any_eq_true.mp hany with ⟨x, hx, hxid⟩
    exact List.mem_map.mpr ⟨x, hx, by simp [hxid]⟩
  case isFalse hany => simp

theorem mem_upsertById_keep {acc : List BlockchainTransaction} {t y : BlockchainTransaction}
    (ht : t ∈ acc) (hy : y.id = t.id → y = t) : t ∈ BlockchainService.upsertById acc y := by
  unfold BlockchainService.upsertById
  split
  · refine List.mem_map.mpr ⟨t, ht, ?_⟩
    by_cases hid : (t.id == y.id) = true
    · rw [if_pos hid]
      exact hy (eq_of_beq hid).symm
    · simp [hid]
  · exact List.mem_append_left _ ht

theorem upsertFold_mem_of_acc {t : BlockchainTransaction} {L : List BlockchainTransaction}
    (hL : ∀ y ∈ L, y.id = t.id → y = t) :
    ∀ {acc : _}, t ∈ acc → t ∈ L.foldl BlockchainService.upsertById acc := by
  induction L with
  | nil =>
    intro acc ht
    simpa using ht
  | cons y ys ih =>
    intro acc ht
    rw [List.foldl_cons]
    exact ih (fun z hz => hL z (List.mem_cons_of_mem _ hz))
      (mem_upsertById_keep ht (hL y (List.mem_cons_self y ys)))

theorem upsertFold_mem {t : BlockchainTransaction} {L : List BlockchainTransaction}
    (hL : ∀ y ∈ L, y.id = t.id → y = t) (ht : t ∈ L) (acc : List BlockchainTransaction) :
    t ∈ L.foldl BlockchainService.upsertById acc := by
  induction L generalizing acc with
  | nil => cases ht
  | cons y ys ih =>
    rw [List.foldl_cons]
    rcases List.mem_cons.mp ht with rfl | hts
    · exact upsertFold_mem_of_acc (fun z hz => hL z (List.mem_cons_of_mem _ hz))
        (mem_upsertById_self acc t)
    · exact ih (fun z hz => hL z (List.mem_cons_of_mem _ hz)) hts _

theorem countP_id_le_one {l : List BlockchainTransaction}
    (h : l.Pairwise (fun a b => a.id ≠ b.id)) (i : String) :
    l.countP (fun x => x.id == i) ≤ 1 := by
  induction l with
  | nil => simp
  | cons a as ih =>
    rcases List.pairwise_cons.mp h with ⟨ha, htail⟩
    rw [List.countP_cons]
    by_cases hai : (a.id == i) = true
    · have hz : as.countP (fun x => x.id == i) = 0 := by
        rw [List.countP_eq_zero]
        intro x hx
        simp only [beq_iff_eq]
        intro hxi
        exact absurd ((eq_of_beq hai).trans hxi.symm) (ha x hx)
      simp [hai, hz]
    · simpa [hai] using ih htail

/-- The central counting fact behind deduplication: when every element of the
merge input that shares the target's `id` or `hash` is the target itself, and
the target occurs in the input, the merged `Map` holds exactly one record
with the target's hash. -/
theorem countP_hash_mergeById {dbList cache : List BlockchainTransaction}
    {t : BlockchainTransaction}
    (hid : ∀ x ∈ dbList ++ cache, x.id = t.id → x = t)
    (hhash : ∀ x ∈ dbList ++ cache, x.hash = t.hash → x = t)
    (ht : t ∈ dbList ++ cache) :
    (BlockchainService.mergeById dbList cache).countP (fun x => x.hash == t.hash) = 1 := by
  unfold BlockchainService.mergeById
  set L := dbList ++ cache with hL
  set out := L.foldl BlockchainService.upsertById [] with hout
  have hsub : ∀ x ∈ out, x ∈ L := by
    intro x hx
    rcases mem_upsertFold hx with h1 | h2
    · cases h1
    · exact h2
  have hpair : out.Pairwise (fun a b => a.id ≠ b.id) := upsertFold_ids (by simp)
  have hmem : t ∈ out := upsertFold_mem hid ht []
  have hle : out.countP (fun x => x.hash == t.hash) ≤ out.countP (fun x => x.id == t.id) := by
    apply List.countP_mono_left
    intro x hx hh
    have hx2 : x = t := hhash x (hsub x hx) (eq_of_beq hh)
    simp [hx2]
  have h1 : out.countP (fun x => x.id == t.id) ≤ 1 := countP_id_le_one hpair t.id
  have hpos : 0 < out.countP (fun x => x.hash == t.hash) :=
    List.countP_pos_iff.mpr ⟨t, hmem, by simp⟩
  omega

theorem upsertById_length (acc : List BlockchainTransaction) (t : BlockchainTransaction) :
    (BlockchainService.upsertById acc t).length ≤ acc.length + 1 := by
  unfold BlockchainService.upsertById
  split
  · simp
  · simp

theorem upsertFold_length (L : List BlockchainTransaction) :
    ∀ acc : List BlockchainTransaction,
      (L.foldl BlockchainService.upsertById acc).length ≤ acc.length + L.length := by
  induction L with
  | nil => simp
  | cons y ys ih =>
    intro acc
    rw [List.foldl_cons]
    calc (ys.foldl BlockchainService.upsertById (BlockchainService.upsertById acc y)).length
        ≤ (BlockchainService.upsertById acc y).length + ys.length := ih _
      _ ≤ (acc.length + 1) + ys.length := by
          exact Nat.add_le_add_right (upsertById_length acc y) ys.length
      _ = acc.length + (y :: ys).length := by simp [Nat.add_comm, Nat.add_assoc, Nat.add_left_comm]

theorem applyMonitorBatch_transactions (s : BlockchainState) (b : List BlockchainTransaction) :
    (BlockchainService.applyMonitorBatch s b).transactions
      = b.filter (fun tx => !(s.processedTransactionHashes.contains (lowerStr tx.hash)))
        ++ s.transactions := by
  simp only [BlockchainService.applyMonitorBatch]
  split
  · rfl
  case isFalse hlen =>
    have h0 : b.filter
        (fun tx => !(s.processedTransactionHashes.contains (lowerStr tx.hash))) = [] := by
      rw [← List.length_eq_zero]
      omega
    rw [h0]
    rfl

theorem applyMonitorBatch_store (s : BlockchainState) (b : List BlockchainTransaction) :
    (BlockchainService.applyMonitorBatch s b).store = s.store := by
  simp only [BlockchainService.applyMonitorBatch]
  split <;> rfl

theorem applyMonitorBatch_processed (s : BlockchainState) (b : List BlockchainTransaction) :
    (BlockchainService.applyMonitorBatch s b).processedTransactionHashes
      = s.processedTransactionHashes := by
  simp only [BlockchainService.applyMonitorBatch]
  split <;> rfl

theorem mem_addProcessed (l : List String) (h : String) : h ∈ addProcessed l h := by
  unfold addProcessed
  split
  case isTrue hc => exact List.mem_of_elem_eq_true hc
  case isFalse hc => exact List.mem_cons_self _ _

theorem persistDoc_dup {db : List TransactionDocument} {doc : TransactionDocument}
    (hdup : ∃ d ∈ db, d.hash = doc.hash) : persistDoc (some db) doc = some db := by
  obtain ⟨d, hd, hdh⟩ := hdup
  have hfind : (TransactionModel.findByHash db doc.hash).isSome = true := by
    unfold TransactionModel.findByHash
    rw [List.find?_isSome]
    exact ⟨d, hd, beq_iff_eq.mpr hdh⟩
  have hp : persistDoc (some db) doc
      = if (TransactionModel.findByHash db doc.hash).isSome then some db
        else match TransactionModel.insert db doc with
          | Except.ok db2 => some db2
          | Except.error _ => some db := rfl
  rw [hp, if_pos hfind]

/-! Claim theorems. -/

/-- C2: for records whose display amounts are `["$1.2M", "$500K", "₹300"]`
(with no stored raw amount field), the store aggregate `getTotalAid` returns
the normalized total `1,700,300`, and `formatAidAmount` renders that total as
`"$1.7M"` — the parse-sum-format round trip is exact for these values. -/
theorem c2_aggregate_round_trip :
    TransactionModel.getTotalAid c2docs = 1700300 ∧
    BlockchainService.formatAidAmount (some (TransactionModel.getTotalAid c2docs)) = "$1.7M" := by
  have h1 : TransactionModel.getTotalAid c2docs = 1700300 := by
    have hfold : TransactionModel.getTotalAid c2docs
        = ((0 + ((((1:ℕ):ℚ) + ((2:ℕ):ℚ) / 10 ^ (1:ℕ)) * 1000000))
            + (((500:ℕ):ℚ) * 1000)) + ((300:ℕ):ℚ) := rfl
    rw [hfold]
    norm_num
  refine ⟨h1, ?_⟩
  rw [h1]
  have hge : jsGe (some (1700300:ℚ)) 1000000 = true := by decide
  have htf : toFixedQ 1 ((1700300:ℚ) / 1000000) = "1.7" := by
    unfold toFixedQ
    norm_num
    rfl
  simp only [BlockchainService.formatAidAmount, hge, if_true, Option.getD_some]
  rw [htf]
  rfl

/-- C9: the startup loop attempts the store connection at most 5 times and
the server keeps listening; when every attempt fails, exactly 5 attempts run
with waits of 2s, 4s, 6s, 8s between them, and the process continues in
degraded (not connected) mode instead of failing to start. -/
theorem c9_startup_backoff (ok : Nat → Bool) :
    (runStartup ok).attempts ≤ 5 ∧ (runStartup ok).serverListening = true ∧
    ((∀ k, k < 5 → ok k = false) →
      (runStartup ok).connected = false ∧ (runStartup ok).attempts = 5 ∧
      (runStartup ok).waits = [2000, 4000, 6000, 8000]) := by
  refine ⟨?_, rfl, ?_⟩
  · by_cases h0 : ok 0 = true
    · norm_num [runStartup, startupGo, h0]
    · rw [Bool.not_eq_true] at h0
      by_cases h1 : ok 1 = true
      · norm_num [runStartup, startupGo, h0, h1]
      · rw [Bool.not_eq_true] at h1
        by_cases h2 : ok 2 = true
        · norm_num [runStartup, startupGo, h0, h1, h2]
        · rw [Bool.not_eq_true] at h2
          by_cases h3 : ok 3 = true
          · norm_num [runStartup, startupGo, h0, h1, h2, h3]
          · rw [Bool.not_eq_true] at h3
            by_cases h4 : ok 4 = true
            · norm_num [runStartup, startupGo, h0, h1, h2, h3, h4]
            · rw [Bool.not_eq_true] at h4
              norm_num [runStartup, startupGo, h0, h1, h2, h3, h4]
  · intro hall
    have e0 := hall 0 (by norm_num)
    have e1 := hall 1 (by norm_num)
    have e2 := hall 2 (by norm_num)
    have e3 := hall 3 (by norm_num)
    have e4 := hall 4 (by norm_num)
    norm_num [runStartup, startupGo, e0, e1, e2, e3, e4]

/-- C9 witness: with every connection attempt failing, the loop runs its five
attempts, waits 2s/4s/6s/8s, and the server still serves. -/
theorem c9_startup_backoff_witness :
    (runStartup (fun _ => false)).attempts ≤ 5 ∧
    (runStartup (fun _ => false)).serverListening = true ∧
    ((runStartup (fun _ => false)).connected = false ∧
      (runStartup (fun _ => false)).attempts = 5 ∧
      (runStartup (fun _ => false)).waits = [2000, 4000, 6000, 8000]) := by
  obtain ⟨ha, hs, himp⟩ := c9_startup_backoff (fun _ => false)
  exact ⟨ha, hs, himp (fun k _ => rfl)⟩

/-- C10 counterexample: a stored document whose `amountInINR` field is set
(to `0`) does not contribute that raw value; the parsed display string (`₹5`,
contributing 5) is used instead, so the claim fails as stated for falsy raw
amounts. -/
theorem c10_zero_raw_amount_cex :
    TransactionModel.getTotalAid [zeroInrDoc] = 5 ∧
    TransactionModel.getTotalAid [zeroInrDoc] ≠ 0 := by
  have h : TransactionModel.getTotalAid [zeroInrDoc] = 0 + ((5:ℕ):ℚ) := rfl
  rw [h]
  norm_num

/-- C10 (amended): for every stored document whose raw `amountInINR` field is
set to a nonzero value, `getTotalAid`'s per-document contribution is exactly
that raw value and the display amount string is ignored (changing it does not
change the contribution). -/
theorem c10_raw_amount_wins (d : TransactionDocument) (v : ℚ)
    (hv : d.amountInINR = some v) (hnz : v ≠ 0) (s : String) :
    TransactionModel.docContribution d = v ∧
    TransactionModel.docContribution { d with amount := s } = v ∧
    TransactionModel.getTotalAid [d] = v := by
  have ht : jsTruthy (some v) = true := by
    simp [jsTruthy, hnz]
  refine ⟨?_, ?_, ?_⟩
  · simp [TransactionModel.docContribution, hv, ht]
  · simp [TransactionModel.docContribution, hv, ht]
  · have h0 : TransactionModel.getTotalAid [d] = 0 + TransactionModel.docContribution d := rfl
    rw [h0]
    simp [TransactionModel.docContribution, hv, ht]

/-- C10 witness: a document with raw amount 5 and display string `₹300`
contributes 5, whatever the display string says. -/
theorem c10_raw_amount_wins_witness :
    inr5doc.amountInINR = some 5 ∧ (5:ℚ) ≠ 0 ∧
    (TransactionModel.docContribution inr5doc = 5 ∧
      TransactionModel.docContribution { inr5doc with amount := "$1.2M" } = 5 ∧
      TransactionModel.getTotalAid [inr5doc] = 5) :=
  ⟨rfl, by decide, c10_raw_amount_wins inr5doc 5 rfl (by decide) "$1.2M"⟩

/-- C8: inserting a transaction whose hash already exists in the store
creates no second document and raises no error to the write caller — the
write path's pre-insert hash lookup skips on a match, the unique hash index
rejects a bypassing duplicate insert with a duplicate-key error, and that
error is absorbed; the returned record does not depend on the store at all. -/
theorem c8_idempotent_persistence (db : List TransactionDocument) (doc : TransactionDocument)
    (env : ChainEnv) (s : BlockchainState) (p : UPIPaymentInput)
    (hdb : s.store = some db)
    (hdup : ∃ d ∈ db, d.hash = doc.hash)
    (hdup2 : ∃ d ∈ db, d.hash = (BlockchainService.recordUPIPayment env s p).1.hash) :
    (∃ e, TransactionModel.insert db doc = Except.error e) ∧
    persistDoc (some db) doc = some db ∧
    (BlockchainService.recordUPIPayment env s p).2.store = some db ∧
    (BlockchainService.recordUPIPayment env s p).1
      = (BlockchainService.recordUPIPayment env { s with store := none } p).1 := by
  obtain ⟨d, hd, hdh⟩ := hdup
  have hany : db.any (fun x => x.hash == doc.hash) = true :=
    List.any_eq_true.mpr ⟨d, hd, beq_iff_eq.mpr hdh⟩
  refine ⟨⟨"E11000 duplicate key error", ?_⟩, persistDoc_dup ⟨d, hd, hdh⟩, ?_, rfl⟩
  · unfold TransactionModel.insert
    rw [if_pos hany]
  · obtain ⟨d2, hd2, hdh2⟩ := hdup2
    show (persistDoc s.store _) = some db
    rw [hdb]
    exact persistDoc_dup ⟨d2, hd2, hdh2⟩

/-- C8 witness: recording the scenario payment against a store that already
holds a document with the payment's deterministic hash leaves the store
unchanged and still returns the record. -/
theorem c8_idempotent_persistence_witness :
    ({ emptyDbState with
        store := some [sampleDoc "TX-1" "₹300" "0xUPI-001-500-2024-01-02T00:00:00.000Z"]
      } : BlockchainState).store
      = some [sampleDoc "TX-1" "₹300" "0xUPI-001-500-2024-01-02T00:00:00.000Z"] ∧
    (∃ d ∈ [sampleDoc "TX-1" "₹300" "0xUPI-001-500-2024-01-02T00:00:00.000Z"],
      d.hash = (sampleDoc "TX-2" "$500K" "0xUPI-001-500-2024-01-02T00:00:00.000Z").hash) ∧
    (∃ d ∈ [sampleDoc "TX-1" "₹300" "0xUPI-001-500-2024-01-02T00:00:00.000Z"],
      d.hash = (BlockchainService.recordUPIPayment envNoWallet
        { emptyDbState with
          store := some [sampleDoc "TX-1" "₹300" "0xUPI-001-500-2024-01-02T00:00:00.000Z"] }
        paymentA).1.hash) ∧
    ((∃ e, TransactionModel.insert
        [sampleDoc "TX-1" "₹300" "0xUPI-001-500-2024-01-02T00:00:00.000Z"]
        (sampleDoc "TX-2" "$500K" "0xUPI-001-500-2024-01-02T00:00:00.000Z")
        = Except.error e) ∧
      persistDoc (some [sampleDoc "TX-1" "₹300" "0xUPI-001-500-2024-01-02T00:00:00.000Z"])
        (sampleDoc "TX-2" "$500K" "0xUPI-001-500-2024-01-02T00:00:00.000Z")
        = some [sampleDoc "TX-1" "₹300" "0xUPI-001-500-2024-01-02T00:00:00.000Z"] ∧
      (BlockchainService.recordUPIPayment envNoWallet
        { emptyDbState with
          store := some [sampleDoc "TX-1" "₹300" "0xUPI-001-500-2024-01-02T00:00:00.000Z"] }
        paymentA).2.store
        = some [sampleDoc "TX-1" "₹300" "0xUPI-001-500-2024-01-02T00:00:00.000Z"] ∧
      (BlockchainService.recordUPIPayment envNoWallet
        { emptyDbState with
          store := some [sampleDoc "TX-1" "₹300" "0xUPI-001-500-2024-01-02T00:00:00.000Z"] }
        paymentA).1
        = (BlockchainService.recordUPIPayment envNoWallet
          { ({ emptyDbState with
              store := some [sampleDoc "TX-1" "₹300" "0xUPI-001-500-2024-01-02T00:00:00.000Z"]
            } : BlockchainState) with store := none }
          paymentA).1) :=
  ⟨rfl, by decide, by decide,
    c8_idempotent_persistence _ _ envNoWallet _ paymentA rfl (by decide) (by decide)⟩

/-- C6: when the store is reachable, the totals returned by `getTransactions`
come from the store — the count is the store's document count and the total
aid is the formatted store-wide sum — for every in-memory cache, including
caches holding records the store does not contain. -/
theorem c6_totals_from_store (env : ChainEnv) (s : BlockchainState)
    (db : List TransactionDocument) (hdb : s.store = some db) :
    (BlockchainService.getTransactions env s).1.totalTransactions = db.length ∧
    (BlockchainService.getTransactions env s).1.totalAid
      = BlockchainService.formatAidAmount (some (TransactionModel.getTotalAid db)) := by
  unfold BlockchainService.getTransactions
  rw [hdb]
  exact ⟨rfl, rfl⟩

/-- C6 witness: with an empty store and a cache holding a record the store
lacks, the totals still come from the store (count 0, sum 0). -/
theorem c6_totals_from_store_witness :
    ({ emptyDbState with transactions := [inrTx] } : BlockchainState).store = some [] ∧
    ((BlockchainService.getTransactions envNoWallet
        { emptyDbState with transactions := [inrTx] }).1.totalTransactions
      = ([] : List TransactionDocument).length ∧
     (BlockchainService.getTransactions envNoWallet
        { emptyDbState with transactions := [inrTx] }).1.totalAid
      = BlockchainService.formatAidAmount (some (TransactionModel.getTotalAid []))) :=
  ⟨rfl, c6_totals_from_store envNoWallet _ [] rfl⟩

/-- C7 counterexample: with the store unreachable and the cache holding one
record whose display amount `₹300` has no suffix, the fallback read returns
the cache but totals it as `300 × 0.0001`, formatted `$0.03` — not the `×1`
reading `$300.00` the claim asserts. -/
theorem c7_no_suffix_scaling_cex :
    (BlockchainService.getTransactions envNoWallet c7state).1.transactions = [inrTx] ∧
    (BlockchainService.getTransactions envNoWallet c7state).1.totalAid = "$0.03" ∧
    BlockchainService.formatAidAmount (some (1 * 300)) = "$300.00" ∧
    ("$0.03" : String) ≠ "$300.00" := by
  have hc : BlockchainService.calculateTotalAid [inrTx]
      = some ((0:ℚ) + ((300:ℕ):ℚ) * (1 / 10000)) := rfl
  have hc2 : BlockchainService.calculateTotalAid [inrTx] = some ((3:ℚ)/100) := by
    rw [hc]
    exact congrArg some (by norm_num)
  have h1 : (BlockchainService.getTransactions envNoWallet c7state).1.totalAid
      = BlockchainService.formatAidAmount (BlockchainService.calculateTotalAid [inrTx]) := rfl
  refine ⟨rfl, ?_, ?_, by decide⟩
  · rw [h1, hc2]
    have hge1 : jsGe (some ((3:ℚ)/100)) 1000000 = false := by
      simp only [jsGe, decide_eq_false_iff_not]
      norm_num
    have hge2 : jsGe (some ((3:ℚ)/100)) 1000 = false := by
      simp only [jsGe, decide_eq_false_iff_not]
      norm_num
    have htf : toFixedQ 2 ((3:ℚ)/100) = "0.03" := by
      unfold toFixedQ
      norm_num
      rfl
    simp only [BlockchainService.formatAidAmount, hge1, hge2, Bool.false_eq_true, if_false,
      Option.getD_some]
    rw [htf]
    rfl
  · have hge1 : jsGe (some ((1:ℚ) * 300)) 1000000 = false := by
      simp only [jsGe, decide_eq_false_iff_not]
      norm_num
    have hge2 : jsGe (some ((1:ℚ) * 300)) 1000 = false := by
      simp only [jsGe, decide_eq_false_iff_not]
      norm_num
    have htf : toFixedQ 2 ((1:ℚ) * 300) = "300.00" := by
      unfold toFixedQ
      norm_num
      rfl
    simp only [BlockchainService.formatAidAmount, hge1, hge2, Bool.false_eq_true, if_false,
      Option.getD_some]
    rw [htf]
    rfl

/-- C7 (amended): when the store is unreachable (and the chain connection is
off, so no refresh happens), `getTransactions` still returns the in-memory
cache, with the count taken from the cache and the total derived by summing
the cache's display amounts via `calculateTotalAid`, which parses `M` as ×10⁶
and `K` as ×10³ but scales suffix-less amounts by ×0.0001. -/
theorem c7_degraded_mode_totals (env : ChainEnv) (s : BlockchainState)
    (hstore : s.store = none) (hreal : s.isRealBlockchainConnected = false) :
    (BlockchainService.getTransactions env s).1.transactions = s.transactions.take 50 ∧
    (BlockchainService.getTransactions env s).1.totalTransactions = s.transactions.length ∧
    (BlockchainService.getTransactions env s).1.totalAid
      = BlockchainService.formatAidAmount (BlockchainService.calculateTotalAid s.transactions) := by
  unfold BlockchainService.getTransactions
  rw [hstore, hreal]
  exact ⟨rfl, rfl, rfl⟩

/-- C7 witness: the degraded-mode read over the one-record cache. -/
theorem c7_degraded_mode_totals_witness :
    c7state.store = none ∧ c7state.isRealBlockchainConnected = false ∧
    ((BlockchainService.getTransactions envNoWallet c7state).1.transactions
        = c7state.transactions.take 50 ∧
     (BlockchainService.getTransactions envNoWallet c7state).1.totalTransactions
        = c7state.transactions.length ∧
     (BlockchainService.getTransactions envNoWallet c7state).1.totalAid
        = BlockchainService.formatAidAmount
            (BlockchainService.calculateTotalAid c7state.transactions)) :=
  ⟨rfl, rfl, c7_degraded_mode_totals envNoWallet c7state rfl rfl⟩

/-- C4: with no signing wallet, the recorded transaction's hash is the keccak
hash of the string `externalRef-amount-timestamp` and its status is pending;
two recordings that agree on reference, amount and timestamp get the same
hash, and two recordings that agree on reference and amount but differ in
timestamp get different hashes (keccak being collision-free on these inputs,
stated as injectivity of the hash primitive). -/
theorem c4_fallback_hash_deterministic (env : ChainEnv) (p q : UPIPaymentRecord)
    (hw : env.walletAddress = none) (hinj : Function.Injective env.keccak256) :
    (UPIPaymentService.recordUPIPayment env p).hash
      = env.keccak256 (p.upiReference ++ "-" ++ jsToString p.amount ++ "-" ++ p.timestamp) ∧
    (UPIPaymentService.recordUPIPayment env p).status = TxStatus.pending ∧
    (p.upiReference = q.upiReference → p.amount = q.amount → p.timestamp = q.timestamp →
      (UPIPaymentService.recordUPIPayment env p).hash
        = (UPIPaymentService.recordUPIPayment env q).hash) ∧
    (p.upiReference = q.upiReference → p.amount = q.amount → p.timestamp ≠ q.timestamp →
      (UPIPaymentService.recordUPIPayment env p).hash
        ≠ (UPIPaymentService.recordUPIPayment env q).hash) := by
  have hcond : ¬ (env.walletAddress.isSome = true ∧ env.walletConnected = true) := by
    rw [hw]
    simp
  have hhash : ∀ r : UPIPaymentRecord, (UPIPaymentService.recordUPIPayment env r).hash
      = env.keccak256 (r.upiReference ++ "-" ++ jsToString r.amount ++ "-" ++ r.timestamp) := by
    intro r
    simp only [UPIPaymentService.recordUPIPayment]
    rw [if_neg hcond]
    rfl
  have hstatus : (UPIPaymentService.recordUPIPayment env p).status = TxStatus.pending := by
    simp only [UPIPaymentService.recordUPIPayment]
    rw [if_neg hcond]
  refine ⟨hhash p, hstatus, ?_, ?_⟩
  · intro h1 h2 h3
    rw [hhash p, hhash q, h1, h2, h3]
  · intro h1 h2 h3 heq
    rw [hhash p, hhash q, h1, h2] at heq
    exact h3 (string_append_left_cancel (hinj heq))

/-- C4 witness: recording the scenario payment twice with timestamps one day
apart yields the same deterministic hash only when the timestamps agree. -/
theorem c4_fallback_hash_deterministic_witness :
    envNoWallet.walletAddress = none ∧ Function.Injective envNoWallet.keccak256 ∧
    ((UPIPaymentService.recordUPIPayment envNoWallet
        (upiRecTs "2024-01-01T00:00:00.000Z")).hash
      = envNoWallet.keccak256 ("UPI-001" ++ "-"
          ++ jsToString (upiRecTs "2024-01-01T00:00:00.000Z").amount ++ "-"
          ++ "2024-01-01T00:00:00.000Z") ∧
     (UPIPaymentService.recordUPIPayment envNoWallet
        (upiRecTs "2024-01-01T00:00:00.000Z")).status = TxStatus.pending ∧
     ((upiRecTs "2024-01-01T00:00:00.000Z").upiReference
          = (upiRecTs "2024-01-02T00:00:00.000Z").upiReference →
      (upiRecTs "2024-01-01T00:00:00.000Z").amount
          = (upiRecTs "2024-01-02T00:00:00.000Z").amount →
      (upiRecTs "2024-01-01T00:00:00.000Z").timestamp
          = (upiRecTs "2024-01-02T00:00:00.000Z").timestamp →
      (UPIPaymentService.recordUPIPayment envNoWallet
          (upiRecTs "2024-01-01T00:00:00.000Z")).hash
        = (UPIPaymentService.recordUPIPayment envNoWallet
          (upiRecTs "2024-01-02T00:00:00.000Z")).hash) ∧
     ((upiRecTs "2024-01-01T00:00:00.000Z").upiReference
          = (upiRecTs "2024-01-02T00:00:00.000Z").upiReference →
      (upiRecTs "2024-01-01T00:00:00.000Z").amount
          = (upiRecTs "2024-01-02T00:00:00.000Z").amount →
      (upiRecTs "2024-01-01T00:00:00.000Z").timestamp
          ≠ (upiRecTs "2024-01-02T00:00:00.000Z").timestamp →
      (UPIPaymentService.recordUPIPayment envNoWallet
          (upiRecTs "2024-01-01T00:00:00.000Z")).hash
        ≠ (UPIPaymentService.recordUPIPayment envNoWallet
          (upiRecTs "2024-01-02T00:00:00.000Z")).hash)) :=
  ⟨rfl, fun _ _ h => string_append_left_cancel h,
    c4_fallback_hash_deterministic envNoWallet
      (upiRecTs "2024-01-01T00:00:00.000Z") (upiRecTs "2024-01-02T00:00:00.000Z")
      rfl (fun _ _ h => string_append_left_cancel h)⟩

/-- C3: the only caller-facing hard failure of the UPI recording pipeline is
malformed input (missing amount or external reference) at the route boundary;
a ledger submission error is caught and downgraded to the deterministic
fallback hash with pending status; and the durable-store outcome never
changes (let alone aborts) the record returned to the caller. -/
theorem c3_only_invalid_payment_fails (env : ChainEnv) (s : BlockchainState)
    (form : RecordUpiForm) (p : UPIPaymentInput) (e : String)
    (hsend : env.sendResult = Except.error e)
    (hw : env.walletAddress.isSome = true) (hwc : env.walletConnected = true) :
    ((∃ err, recordUpiRoute env s form = Except.error err) ↔
      (jsFalsyField form.amount = true ∨ jsFalsyField form.upiReference = true)) ∧
    (jsFalsyField form.amount = false → jsFalsyField form.upiReference = false →
      ∃ r s2, recordUpiRoute env s form = Except.ok (r, s2)) ∧
    (BlockchainService.recordUPIPayment env s p).1
      = (BlockchainService.recordUPIPayment env { s with store := none } p).1 ∧
    (BlockchainService.recordUPIPayment env s p).1.status = TxStatus.pending ∧
    (BlockchainService.recordUPIPayment env s p).1.hash
      = env.keccak256 (p.upiReference ++ "-" ++ jsToString p.amount ++ "-" ++ env.nowISO) := by
  have hs2 : ∀ r : UPIPaymentRecord,
      (UPIPaymentService.recordUPIPayment env r).status = TxStatus.pending ∧
      (UPIPaymentService.recordUPIPayment env r).hash
        = env.keccak256 (r.upiReference ++ "-" ++ jsToString r.amount ++ "-" ++ r.timestamp) := by
    intro r
    simp only [UPIPaymentService.recordUPIPayment]
    rw [if_pos ⟨hw, hwc⟩, hsend]
    exact ⟨rfl, rfl⟩
  refine ⟨?_, ?_, rfl, (hs2 _).1, (hs2 _).2⟩
  · unfold recordUpiRoute
    by_cases hcond : (jsFalsyField form.amount || jsFalsyField form.upiReference) = true
    · rw [if_pos hcond]
      constructor
      · intro _
        exact Bool.or_eq_true_iff.mp hcond
      · intro _
        exact ⟨"Missing required fields: amount and upiReference are required", rfl⟩
    · rw [if_neg hcond]
      constructor
      · intro ⟨err, herr⟩
        cases herr
      · intro hor
        exact absurd (Bool.or_eq_true_iff.mpr hor) hcond
  · intro ha hr
    unfold recordUpiRoute
    rw [if_neg (by rw [ha, hr]; decide)]
    exact ⟨_, _, rfl⟩

/-- C3 witness: a wallet-configured environment whose ledger submission fails
still records the scenario payment with a pending fallback-hash record, and
the route only errors on missing fields. -/
theorem c3_only_invalid_payment_fails_witness :
    envWalletFail.sendResult = Except.error "RPC failure" ∧
    envWalletFail.walletAddress.isSome = true ∧
    envWalletFail.walletConnected = true ∧
    (((∃ err, recordUpiRoute envWalletFail memOnlyState formA = Except.error err) ↔
        (jsFalsyField formA.amount = true ∨ jsFalsyField formA.upiReference = true)) ∧
     (jsFalsyField formA.amount = false → jsFalsyField formA.upiReference = false →
        ∃ r s2, recordUpiRoute envWalletFail memOnlyState formA = Except.ok (r, s2)) ∧
     (BlockchainService.recordUPIPayment envWalletFail memOnlyState paymentA).1
        = (BlockchainService.recordUPIPayment envWalletFail
            { memOnlyState with store := none } paymentA).1 ∧
     (BlockchainService.recordUPIPayment envWalletFail memOnlyState paymentA).1.status
        = TxStatus.pending ∧
     (BlockchainService.recordUPIPayment envWalletFail memOnlyState paymentA).1.hash
        = envWalletFail.keccak256 ("UPI-001" ++ "-" ++ jsToString paymentA.amount ++ "-"
            ++ envWalletFail.nowISO)) :=
  ⟨rfl, rfl, rfl,
    c3_only_invalid_payment_fails envWalletFail memOnlyState formA paymentA
      "RPC failure" rfl rfl rfl⟩

/-- C5 counterexample: after recording a payment and then receiving a monitor
batch with an older block timestamp, the cache-only fallback of
`getTransactions` returns a list that is not sorted by timestamp descending
(the older record sits in front), refuting the claim for the fallback path. -/
theorem c5_fallback_unsorted_cex :
    ¬ (BlockchainService.getTransactions envNoWallet c5state).1.transactions.Pairwise
        (fun a b => txTime b ≤ txTime a) := by
  decide

/-- C5 (amended): every list returned by the store-backed path of
`getTransactions` is sorted by timestamp descending; the cache-only fallback
instead returns the in-memory cache as is (truncated to 50), in prepend
order, which need not be sorted. -/
theorem c5_store_path_sorted (env env2 : ChainEnv) (s1 s2 : BlockchainState)
    (db : List TransactionDocument) (hdb : s1.store = some db)
    (hnone : s2.store = none) (hreal : s2.isRealBlockchainConnected = false) :
    (BlockchainService.getTransactions env s1).1.transactions.Pairwise
        (fun a b => txTime b ≤ txTime a) ∧
    (BlockchainService.getTransactions env2 s2).1.transactions = s2.transactions.take 50 := by
  constructor
  · have h : (BlockchainService.getTransactions env s1).1.transactions
        = (sortByKeyDesc txTime (BlockchainService.mergeById
            ((TransactionModel.findAll db 50).map (fun d => d.toBlockchainTransaction))
            s1.transactions)).take 50 := by
      unfold BlockchainService.getTransactions
      rw [hdb]
    rw [h]
    exact (pairwise_sortByKeyDesc txTime _).sublist (List.take_sublist _ _)
  · unfold BlockchainService.getTransactions
    rw [hnone, hreal]
    rfl

/-- C1: a payment recorded via the explicit path registers its lower-cased
hash in the processed set, so a later Chain Monitor batch has every record
with that hash filtered out before merging; and — over a reachable store
that, like the cache, had not yet seen the hash, with fresh identifiers and
few enough records for the 50-record page — the list `getTransactions`
returns contains exactly one record with that hash. -/
theorem c1_no_double_count (env env2 : ChainEnv) (s0 : BlockchainState)
    (p : UPIPaymentInput) (batch : List BlockchainTransaction)
    (db0 : List TransactionDocument) (tx : BlockchainTransaction) (s1 : BlockchainState)
    (htx : BlockchainService.recordUPIPayment env s0 p = (tx, s1))
    (hstore : s0.store = some db0)
    (hdb_hash : ∀ d ∈ db0, d.hash ≠ tx.hash)
    (hdb_id : ∀ d ∈ db0, d.id ≠ tx.id)
    (hc_hash : ∀ r ∈ s0.transactions, r.hash ≠ tx.hash)
    (hc_id : ∀ r ∈ s0.transactions, r.id ≠ tx.id)
    (hb_id : ∀ r ∈ batch, r.id ≠ tx.id)
    (hsize : db0.length + batch.length + s0.transactions.length + 2 ≤ 50) :
    (batch.filter (fun b =>
        !(s1.processedTransactionHashes.contains (lowerStr b.hash)))).countP
      (fun b => lowerStr b.hash == lowerStr tx.hash) = 0 ∧
    ((BlockchainService.getTransactions env2
        (BlockchainService.applyMonitorBatch s1 batch)).1.transactions.countP
      (fun r => r.hash == tx.hash)) = 1 := by
  have h1 : tx = (BlockchainService.recordUPIPayment env s0 p).1 := by rw [htx]
  have h2 : s1 = (BlockchainService.recordUPIPayment env s0 p).2 := by rw [htx]
  subst h1
  subst h2
  set T := (BlockchainService.recordUPIPayment env s0 p).1 with hT
  set S1 := (BlockchainService.recordUPIPayment env s0 p).2 with hS1
  -- the processed set registers the lower-cased hash
  have hpr : S1.processedTransactionHashes
      = addProcessed s0.processedTransactionHashes (lowerStr T.hash) := rfl
  have hmemproc : lowerStr T.hash ∈ S1.processedTransactionHashes := by
    rw [hpr]
    exact mem_addProcessed _ _
  -- conjunct (a): no survivor of the filter carries the hash
  have hconjA : (batch.filter (fun b =>
      !(S1.processedTransactionHashes.contains (lowerStr b.hash)))).countP
      (fun b => lowerStr b.hash == lowerStr T.hash) = 0 := by
    rw [List.countP_eq_zero]
    intro b hb
    have hpred := (List.mem_filter.mp hb).2
    simp only [beq_iff_eq]
    intro hlow
    rw [hlow] at hpred
    have hcont : S1.processedTransactionHashes.contains (lowerStr T.hash) = true :=
      List.elem_eq_true_of_mem hmemproc
    rw [hcont] at hpred
    simp at hpred
  refine ⟨hconjA, ?_⟩
  -- the store after best-effort persistence
  have hdocstore : S1.store = persistDoc s0.store (upiDoc T p) := rfl
  have hfind : TransactionModel.findByHash db0 (upiDoc T p).hash = none := by
    unfold TransactionModel.findByHash
    rw [List.find?_eq_none]
    intro d hd
    simp only [beq_iff_eq]
    exact hdb_hash d hd
  have hany : db0.any (fun d => d.hash == (upiDoc T p).hash) = false := by
    rw [List.any_eq_false]
    intro d hd
    simp only [beq_iff_eq]
    exact hdb_hash d hd
  have hinsert : TransactionModel.insert db0 (upiDoc T p)
      = Except.ok (db0 ++ [upiDoc T p]) := by
    unfold TransactionModel.insert
    rw [if_neg (by simp [hany])]
  have hstore1 : S1.store = some (db0 ++ [upiDoc T p]) := by
    rw [hdocstore, hstore]
    have hp : persistDoc (some db0) (upiDoc T p)
        = if (TransactionModel.findByHash db0 (upiDoc T p).hash).isSome then some db0
          else match TransactionModel.insert db0 (upiDoc T p) with
            | Except.ok db2 => some db2
            | Except.error _ => some db0 := rfl
    rw [hp, hfind, if_neg (by simp), hinsert]
  -- the state after the monitor batch
  have hs2store : (BlockchainService.applyMonitorBatch S1 batch).store
      = some (db0 ++ [upiDoc T p]) := by
    rw [applyMonitorBatch_store, hstore1]
  have hs2txs : (BlockchainService.applyMonitorBatch S1 batch).transactions
      = batch.filter (fun b => !(S1.processedTransactionHashes.contains (lowerStr b.hash)))
        ++ (T :: s0.transactions) := by
    rw [applyMonitorBatch_transactions]
    rfl
  -- shape of the read path
  have hout : (BlockchainService.getTransactions env2
      (BlockchainService.applyMonitorBatch S1 batch)).1.transactions
      = (sortByKeyDesc txTime (BlockchainService.mergeById
          ((TransactionModel.findAll (db0 ++ [upiDoc T p]) 50).map
            (fun d => d.toBlockchainTransaction))
          (BlockchainService.applyMonitorBatch S1 batch).transactions)).take 50 := by
    unfold BlockchainService.getTransactions
    rw [hs2store]
  have hdbllen : (db0 ++ [upiDoc T p]).length = db0.length + 1 := by
    rw [List.length_append]
    rfl
  have hfa : TransactionModel.findAll (db0 ++ [upiDoc T p]) 50
      = sortByKeyDesc docTime (db0 ++ [upiDoc T p]) := by
    unfold TransactionModel.findAll
    apply List.take_of_length_le
    rw [(perm_sortByKeyDesc docTime _).length_eq, hdbllen]
    omega
  -- every merge-input record is the new record or clashes with it nowhere
  have hmemdb : ∀ x ∈ (sortByKeyDesc docTime (db0 ++ [upiDoc T p])).map
      (fun d => d.toBlockchainTransaction),
      x = T ∨ (x.id ≠ T.id ∧ x.hash ≠ T.hash) := by
    intro x hx
    rcases List.mem_map.mp hx with ⟨d, hd, rfl⟩
    have hd2 : d ∈ db0 ++ [upiDoc T p] := (perm_sortByKeyDesc docTime _).mem_iff.mp hd
    rcases List.mem_append.mp hd2 with hdb | hdoc
    · exact Or.inr ⟨hdb_id d hdb, hdb_hash d hdb⟩
    · left
      have hde : d = upiDoc T p := by simpa using hdoc
      rw [hde]
      rfl
  have hmemcache : ∀ x ∈ (BlockchainService.applyMonitorBatch S1 batch).transactions,
      x = T ∨ (x.id ≠ T.id ∧ x.hash ≠ T.hash) := by
    intro x hx
    rw [hs2txs] at hx
    rcases List.mem_append.mp hx with hxf | hxc
    · right
      have hxb : x ∈ batch := (List.mem_filter.mp hxf).1
      refine ⟨hb_id x hxb, ?_⟩
      intro hxh
      have hpred := (List.mem_filter.mp hxf).2
      have hlow : lowerStr x.hash = lowerStr T.hash := by rw [hxh]
      have hcont : S1.processedTransactionHashes.contains (lowerStr T.hash) = true :=
        List.elem_eq_true_of_mem hmemproc
      rw [hlow, hcont] at hpred
      simp at hpred
    · rcases List.mem_cons.mp hxc with rfl | hxs
      · exact Or.inl rfl
      · exact Or.inr ⟨hc_id x hxs, hc_hash x hxs⟩
  have hid : ∀ x ∈ (sortByKeyDesc docTime (db0 ++ [upiDoc T p])).map
      (fun d => d.toBlockchainTransaction)
      ++ (BlockchainService.applyMonitorBatch S1 batch).transactions,
      x.id = T.id → x = T := by
    intro x hx hxid
    rcases List.mem_append.mp hx with h | h
    · rcases hmemdb x h with h1 | h2
      · exact h1
      · exact absurd hxid h2.1
    · rcases hmemcache x h with h1 | h2
      · exact h1
      · exact absurd hxid h2.1
  have hhash2 : ∀ x ∈ (sortByKeyDesc docTime (db0 ++ [upiDoc T p])).map
      (fun d => d.toBlockchainTransaction)
      ++ (BlockchainService.applyMonitorBatch S1 batch).transactions,
      x.hash = T.hash → x = T := by
    intro x hx hxh
    rcases List.mem_append.mp hx with h | h
    · rcases hmemdb x h with h1 | h2
      · exact h1
      · exact absurd hxh h2.2
    · rcases hmemcache x h with h1 | h2
      · exact h1
      · exact absurd hxh h2.2
  have htL : T ∈ (sortByKeyDesc docTime (db0 ++ [upiDoc T p])).map
      (fun d => d.toBlockchainTransaction)
      ++ (BlockchainService.applyMonitorBatch S1 batch).transactions := by
    apply List.mem_append_right
    rw [hs2txs]
    exact List.mem_append_right _ (List.mem_cons_self _ _)
  have hcount : (BlockchainService.mergeById
      ((sortByKeyDesc docTime (db0 ++ [upiDoc T p])).map
        (fun d => d.toBlockchainTransaction))
      (BlockchainService.applyMonitorBatch S1 batch).transactions).countP
      (fun r => r.hash == T.hash) = 1 :=
    countP_hash_mergeById hid hhash2 htL
  -- the whole merged set fits in the 50-record page
  have hlen : (BlockchainService.mergeById
      ((sortByKeyDesc docTime (db0 ++ [upiDoc T p])).map
        (fun d => d.toBlockchainTransaction))
      (BlockchainService.applyMonitorBatch S1 batch).transactions).length ≤ 50 := by
    have hl1 : ((sortByKeyDesc docTime (db0 ++ [upiDoc T p])).map
        (fun d => d.toBlockchainTransaction)).length = db0.length + 1 := by
      rw [List.length_map, (perm_sortByKeyDesc docTime _).length_eq, hdbllen]
    have hl2 : (BlockchainService.applyMonitorBatch S1 batch).transactions.length
        ≤ batch.length + (s0.transactions.length + 1) := by
      rw [hs2txs, List.length_append]
      have hfl := List.length_filter_le
        (fun b => !(S1.processedTransactionHashes.contains (lowerStr b.hash))) batch
      simp only [List.length_cons]
      omega
    have h3 := upsertFold_length
      ((sortByKeyDesc docTime (db0 ++ [upiDoc T p])).map
        (fun d => d.toBlockchainTransaction)
        ++ (BlockchainService.applyMonitorBatch S1 batch).transactions) []
    unfold BlockchainService.mergeById
    rw [List.length_append] at h3
    simp only [List.length_nil] at h3
    omega
  have htake : (sortByKeyDesc txTime (BlockchainService.mergeById
      ((sortByKeyDesc docTime (db0 ++ [upiDoc T p])).map
        (fun d => d.toBlockchainTransaction))
      (BlockchainService.applyMonitorBatch S1 batch).transactions)).take 50
      = sortByKeyDesc txTime (BlockchainService.mergeById
        ((sortByKeyDesc docTime (db0 ++ [upiDoc T p])).map
          (fun d => d.toBlockchainTransaction))
        (BlockchainService.applyMonitorBatch S1 batch).transactions) := by
    apply List.take_of_length_le
    rw [(perm_sortByKeyDesc txTime _).length_eq]
    exact hlen
  rw [hout, hfa, htake, (perm_sortByKeyDesc txTime _).countP_eq]
  exact hcount

/-- C1 witness: recording the scenario payment into an empty store and cache,
then receiving a monitor batch that re-observes the same hash, leaves exactly
one record with that hash in the returned list. -/
theorem c1_no_double_count_witness :
    BlockchainService.recordUPIPayment envNoWallet emptyDbState paymentA
      = ((BlockchainService.recordUPIPayment envNoWallet emptyDbState paymentA).1,
         (BlockchainService.recordUPIPayment envNoWallet emptyDbState paymentA).2) ∧
    emptyDbState.store = some [] ∧
    (∀ r ∈ [c1mtx], r.id
        ≠ (BlockchainService.recordUPIPayment envNoWallet emptyDbState paymentA).1.id) ∧
    (([] : List TransactionDocument).length + [c1mtx].length
        + emptyDbState.transactions.length + 2 ≤ 50) ∧
    (([c1mtx].filter (fun b =>
        !((BlockchainService.recordUPIPayment envNoWallet emptyDbState
            paymentA).2.processedTransactionHashes.contains (lowerStr b.hash)))).countP
      (fun b => lowerStr b.hash
        == lowerStr (BlockchainService.recordUPIPayment envNoWallet emptyDbState
            paymentA).1.hash) = 0 ∧
     ((BlockchainService.getTransactions envNoWallet
        (BlockchainService.applyMonitorBatch
          (BlockchainService.recordUPIPayment envNoWallet emptyDbState paymentA).2
          [c1mtx])).1.transactions.countP
      (fun r => r.hash
        == (BlockchainService.recordUPIPayment envNoWallet emptyDbState
            paymentA).1.hash)) = 1) :=
  ⟨rfl, rfl, by decide, by decide,
    c1_no_double_count envNoWallet envNoWallet emptyDbState paymentA [c1mtx] [] _ _
      rfl rfl (by decide) (by decide) (by decide) (by decide) (by decide) (by decide)⟩

/-- C5 witness: the store-backed read over a fresh state is sorted, and the
degraded read returns the cache unchanged. -/
theorem c5_store_path_sorted_witness :
    emptyDbState.store = some [] ∧ memOnlyState.store = none ∧
    memOnlyState.isRealBlockchainConnected = false ∧
    ((BlockchainService.getTransactions envNoWallet emptyDbState).1.transactions.Pairwise
        (fun a b => txTime b ≤ txTime a) ∧
     (BlockchainService.getTransactions envNoWallet memOnlyState).1.transactions
        = memOnlyState.transactions.take 50) :=
  ⟨rfl, rfl, rfl,
    c5_store_path_sorted envNoWallet envNoWallet emptyDbState memOnlyState [] rfl rfl rfl⟩

end ResQ
